import Mathlib

/-!
Verification of the `rustascii` image-to-ASCII rendering engine
(`src/image_proc.rs`): dimension resolution, luminance mapping, glyph
selection, and the run-length color-escape encoder of `render_to_text`
and `get_ascii_as_string`.

Modelling conventions: `u8`/`u32`/`usize` values are naturals; `f64`
arithmetic is modelled exactly over `ℚ` (all quantities involved are
rationals; the relevant Rust `as` casts of non-negative finite values
truncate, which `Int.toNat` of a floor/ceiling reproduces, and saturate
NaN and negatives to 0, which `ℚ`'s division-by-zero-is-zero together
with `Int.toNat` reproduces observably); a Rust `panic!`/`expect` is a
`Failure.panicked` value; the output sink is a list of events, one
`write` per `write!` call, assuming every write succeeds.
-/

/-- One RGBA pixel, four 8-bit channels (Rust `image::Rgba<u8>`). -/
structure Rgba where
  r : ℕ
  g : ℕ
  b : ℕ
  a : ℕ
deriving DecidableEq

/-- The ink color of one glyph cell (Rust `ansi_term::Color::RGB`),
compared against the previously emitted color. -/
structure RGB where
  r : ℕ
  g : ℕ
  b : ℕ
deriving DecidableEq

/-- A resampled pixel buffer: a `width × height` row-major grid addressed
as `pixel x y` (the `to_rgba8()` buffer the render loops iterate over). -/
structure Image where
  width : ℕ
  height : ℕ
  pixel : ℕ → ℕ → Rgba

/-- Modelled from the spec: the glyph ramp `crate::ascii::DEFAULT` is
imported by `image_proc.rs` but its definition is not among the source
files; per the spec it is a fixed, ordered, process-wide sequence of
characters from emptiest to fullest, fixed here as the common ten-step
ramp. -/
def DEFAULT : List Char := [' ', '.', ':', '-', '=', '+', '*', '#', '%', '@']

/-- Rust `ImageEngine::get_grayscale_pixel` (image_proc.rs:223-227): the
luminance of a pixel, with the `/255.0` normalization applied only to the
blue term, exactly as in the source. -/
def get_grayscale_pixel (pixel : Rgba) : ℚ :=
  (pixel.r : ℚ) * 0.2989 + (pixel.g : ℚ) * 0.5870 + (pixel.b : ℚ) * 0.1140 / 255

/-- The ramp index `(gray_scale * (DEFAULT.len() - 1) as f64) as usize`
computed by `get_char_for_pixel` (image_proc.rs:220), where
`gray_scale = get_grayscale_pixel(pixel) / maximum` (image_proc.rs:215).
The `as usize` cast truncates a non-negative finite f64 (a floor) and
saturates NaN (arising in Rust only when `maximum == 0`, where the `ℚ`
model yields `0 / 0 = 0`) and negatives to 0, as `Int.toNat` does. -/
def rampIndex (pixel : Rgba) (maximum : ℚ) : ℕ :=
  (⌊get_grayscale_pixel pixel / maximum * ((DEFAULT.length - 1 : ℕ) : ℚ)⌋).toNat

/-- Rust `ImageEngine::get_char_for_pixel` (image_proc.rs:214-221):
pixels at or below the alpha threshold map to a space, all others index
the glyph ramp (Rust `DEFAULT[i]` would panic out of bounds; the `getD`
default is unreachable, see the ramp-safety theorem). -/
def get_char_for_pixel (pixel : Rgba) (alpha_threshold : ℕ) (maximum : ℚ) : Char :=
  if pixel.a ≤ alpha_threshold then ' '
  else DEFAULT.getD (rampIndex pixel maximum) ' '

/-- Modelled from the spec: the spec's error kinds (`InvalidDimensions`,
`DecodeError`, `IoError`) appear nowhere in the source files;
`panicked` additionally models a Rust `panic!`/`expect` unwind — which is
not an error value returned to the caller — together with its message. -/
inductive Failure where
  | invalidDimensions
  | decodeError
  | ioError
  | panicked (msg : String)
deriving DecidableEq

/-- Rust `ImageEngine::calculate_dimensions` (image_proc.rs:229-246).
Each component of the returned pair is `unwrap_or_else` of the requested
value, the fallback computing the missing dimension from the other one
and the source aspect ratio with the `/2.0` glyph correction,
ceiling-rounded; the fallback's `expect` on a missing counterpart panics,
the first (width) component's message winning when both are absent. -/
def calculate_dimensions (width height : Option ℕ) (source_width source_height : ℕ) :
    Except Failure (ℕ × ℕ) :=
  match width, height with
  | some w, some h => Except.ok (w, h)
  | some w, none =>
      Except.ok
        (w, (⌈(w : ℚ) * (source_height : ℚ) / (source_width : ℚ) / 2⌉).toNat)
  | none, some h =>
      Except.ok
        ((⌈(h : ℚ) * (source_width : ℚ) / (source_height : ℚ) / 2⌉).toNat, h)
  | none, none =>
      Except.error (Failure.panicked "Either width or weight must be specified")

/-- Emission alphabet of the render loop: one constructor per kind of
`write!` performed (color-set escape via `color.prefix()`, reset escape
via `color.suffix()`, the `writeln!` line break, and one glyph). -/
inductive Out where
  | setColor (c : RGB)
  | reset
  | newline
  | glyph (ch : Char)
deriving DecidableEq

/-- Encoder-local state of one render pass: `prev_color` and
`current_line` (image_proc.rs:125-126). -/
structure RState where
  prevColor : Option RGB
  currentLine : ℕ
deriving DecidableEq

/-- Row-major pixel enumeration with coordinates, as Rust
`enumerate_pixels()` yields `(x, y, pixel)`. -/
def enumeratePixels (img : Image) : List (ℕ × ℕ × Rgba) :=
  (List.range img.height).flatMap fun y =>
    (List.range img.width).map fun x => (x, y, img.pixel x y)

/-- Row-major pixels without coordinates, as Rust `pixels()` yields
them. -/
def imagePixels (img : Image) : List Rgba :=
  (enumeratePixels img).map fun e => e.2.2

/-- The per-frame maximum-intensity fold (image_proc.rs:128-130):
`pixels().fold(0.0, |acc, pixel| get_grayscale_pixel(pixel).max(acc))`. -/
def maximumIntensity (img : Image) : ℚ :=
  (imagePixels img).foldl (fun acc pixel => max (get_grayscale_pixel pixel) acc) 0

/-- The `for` loop of `render_to_text` (image_proc.rs:132-150): on a row
change, a reset escape if a color is open, then a line break, clearing
`prev_color`; then a color-set escape unless the pixel's color equals
`prev_color`; then the glyph. Returns the final state and the emitted
tokens. -/
def runLoop (alpha_threshold : ℕ) (maximum : ℚ) :
    RState → List (ℕ × ℕ × Rgba) → RState × List Out
  | st, [] => (st, [])
  | st, (_, line, pixel) :: rest =>
    let st1 : RState := if st.currentLine < line then ⟨none, line⟩ else st
    let out1 : List Out :=
      if st.currentLine < line then
        (match st.prevColor with
          | some _ => [Out.reset]
          | none => []) ++ [Out.newline]
      else []
    let color : RGB := ⟨pixel.r, pixel.g, pixel.b⟩
    let out2 : List Out :=
      if st1.prevColor = some color then [] else [Out.setColor color]
    let ch : Char := get_char_for_pixel pixel alpha_threshold maximum
    let p := runLoop alpha_threshold maximum ⟨some color, st1.currentLine⟩ rest
    (p.1, out1 ++ out2 ++ Out.glyph ch :: p.2)

/-- The loop portion of `render_to_text` on a resampled buffer: final
encoder state and tokens emitted by the `for` loop. -/
def renderPass (img : Image) (alpha_threshold : ℕ) : RState × List Out :=
  runLoop alpha_threshold (maximumIntensity img) ⟨none, 0⟩ (enumeratePixels img)

/-- All tokens written by `render_to_text`: the loop's tokens followed —
reference quirk — by a final color-set escape (`prefix()`, not
`suffix()`) when a color is still open at end of stream
(image_proc.rs:152-154). -/
def renderTokens (img : Image) (alpha_threshold : ℕ) : List Out :=
  (renderPass img alpha_threshold).2 ++
    (match (renderPass img alpha_threshold).1.prevColor with
      | some color => [Out.setColor color]
      | none => [])

/-- Modelled from `ansi_term` (an external crate): the characters written
by `Color::RGB(r,g,b).prefix()`, the ANSI "set foreground color" escape
`ESC [ 38 ; 2 ; r ; g ; b m`. -/
def ansiSetColor (c : RGB) : List Char :=
  ['\x1b', '[', '3', '8', ';', '2', ';'] ++ (Nat.repr c.r).data ++ [';']
    ++ (Nat.repr c.g).data ++ [';'] ++ (Nat.repr c.b).data ++ ['m']

/-- Modelled from `ansi_term` (an external crate): the characters written
by `suffix()`, the ANSI reset escape `ESC [ 0 m`. -/
def ansiReset : List Char := ['\x1b', '[', '0', 'm']

/-- Characters produced by one emitted token. -/
def outChars : Out → List Char
  | Out.setColor c => ansiSetColor c
  | Out.reset => ansiReset
  | Out.newline => ['\n']
  | Out.glyph ch => [ch]

/-- Sink events of `render_to_text`: one `write` per `write!`/`writeln!`,
one `flush` for the final `writer.flush()`. -/
inductive Event where
  | write (s : List Char)
  | flush
deriving DecidableEq

/-- Rust `ImageEngine::render_to_text` (image_proc.rs:112-159) on an
already resampled buffer: the sequence of sink events it performs when
every write succeeds (dimension resolution via `calculate_dimensions`
and the external nearest-neighbor `resize_exact` precede this loop
identically in both pipeline functions). -/
def render_to_text (img : Image) (alpha_threshold : ℕ) : List Event :=
  (renderTokens img alpha_threshold).map (fun o => Event.write (outChars o))
    ++ [Event.flush]

/-- Characters actually written through the sink by a list of events. -/
def writtenChars (events : List Event) : List Char :=
  events.flatMap fun e =>
    match e with
    | Event.write s => s
    | Event.flush => []

/-- The `for` loop of `get_ascii_as_string` (image_proc.rs:187-205),
transcribed separately from `runLoop` because the source duplicates the
pipeline: it pushes the same fragments onto an output string
accumulator. -/
def asciiLoop (alpha_threshold : ℕ) (maximum : ℚ) :
    RState → List Char → List (ℕ × ℕ × Rgba) → RState × List Char
  | st, output, [] => (st, output)
  | st, output, (_, line, pixel) :: rest =>
    let st1 : RState := if st.currentLine < line then ⟨none, line⟩ else st
    let output1 : List Char :=
      if st.currentLine < line then
        output ++ (match st.prevColor with
          | some _ => ansiReset
          | none => []) ++ ['\n']
      else output
    let color : RGB := ⟨pixel.r, pixel.g, pixel.b⟩
    let output2 : List Char :=
      if st1.prevColor = some color then output1
      else output1 ++ ansiSetColor color
    let ch : Char := get_char_for_pixel pixel alpha_threshold maximum
    asciiLoop alpha_threshold maximum ⟨some color, st1.currentLine⟩
      (output2 ++ [ch]) rest

/-- Rust `ImageEngine::get_ascii_as_string` (image_proc.rs:167-212) on an
already resampled buffer: the accumulated output string (as characters),
with the same trailing color-set quirk (image_proc.rs:207-209). -/
def get_ascii_as_string (img : Image) (alpha_threshold : ℕ) : List Char :=
  let result :=
    asciiLoop alpha_threshold (maximumIntensity img) ⟨none, 0⟩ []
      (enumeratePixels img)
  result.2 ++
    (match result.1.prevColor with
      | some color => ansiSetColor color
      | none => [])

/-- The spec's transition count, over an enumerated pixel list: the
number of row-major positions whose color differs from the previous
position's color, the previous color being cleared at every row boundary
(so the first pixel of each row always counts). -/
def transitionCountAux : Option RGB → ℕ → List (ℕ × ℕ × Rgba) → ℕ
  | _, _, [] => 0
  | prev, curLine, (_, line, pixel) :: rest =>
    let cleared : Option RGB := if curLine < line then none else prev
    let color : RGB := ⟨pixel.r, pixel.g, pixel.b⟩
    (if cleared = some color then 0 else 1) +
      transitionCountAux (some color) (if curLine < line then line else curLine) rest

/-- The spec's transition count over a whole buffer. -/
def transitionCount (img : Image) : ℕ :=
  transitionCountAux none 0 (enumeratePixels img)

/-- Number of color-set escapes among emitted tokens. -/
def setEscapeCount (l : List Out) : ℕ :=
  l.countP fun o =>
    match o with
    | Out.setColor _ => true
    | _ => false

/-- Number of reset escapes among emitted tokens. -/
def resetEscapeCount (l : List Out) : ℕ :=
  l.countP fun o =>
    match o with
    | Out.reset => true
    | _ => false

/-- The claim's count of row changes at which a color is open
(`previous_color` is `Some` at the moment the row index increases),
tracked over an enumerated pixel list. -/
def openRowChangeCountAux : Option RGB → ℕ → List (ℕ × ℕ × Rgba) → ℕ
  | _, _, [] => 0
  | prev, curLine, (_, line, pixel) :: rest =>
    (if curLine < line then (if prev.isSome then 1 else 0) else 0) +
      openRowChangeCountAux (some ⟨pixel.r, pixel.g, pixel.b⟩)
        (if curLine < line then line else curLine) rest

/-- Row changes with an open color over a whole buffer. -/
def openRowChangeCount (img : Image) : ℕ :=
  openRowChangeCountAux none 0 (enumeratePixels img)

/-- Holds when every reset escape of a token stream is immediately
followed by a line break — i.e. resets occur only at row changes, never
at end of stream. -/
def resetsOnlyBeforeNewline : List Out → Bool
  | [] => true
  | o :: rest =>
    (match o with
      | Out.reset => decide (rest.head? = some Out.newline)
      | _ => true) && resetsOnlyBeforeNewline rest

/-- A `w × h` buffer repeating a single pixel. -/
def constImage (w h : ℕ) (p : Rgba) : Image := ⟨w, h, fun _ _ => p⟩

/-- The opaque red pixel of the spec's 2×1 scenario. -/
def redPixel : Rgba := ⟨255, 0, 0, 255⟩

/-- The fully transparent pixel of the spec's 1×1 scenario. -/
def clearPixel : Rgba := ⟨0, 0, 0, 0⟩

/-! Helper lemmas. -/

lemma gray_nonneg (p : Rgba) : 0 ≤ get_grayscale_pixel p := by
  unfold get_grayscale_pixel
  positivity

@[simp] lemma setEscapeCount_nil : setEscapeCount [] = 0 := rfl

@[simp] lemma setEscapeCount_append (l1 l2 : List Out) :
    setEscapeCount (l1 ++ l2) = setEscapeCount l1 + setEscapeCount l2 :=
  List.countP_append _ l1 l2

@[simp] lemma setEscapeCount_cons_set (c : RGB) (l : List Out) :
    setEscapeCount (Out.setColor c :: l) = setEscapeCount l + 1 :=
  List.countP_cons_of_pos _ l rfl

@[simp] lemma setEscapeCount_cons_reset (l : List Out) :
    setEscapeCount (Out.reset :: l) = setEscapeCount l :=
  List.countP_cons_of_neg _ l (by simp)

@[simp] lemma setEscapeCount_cons_newline (l : List Out) :
    setEscapeCount (Out.newline :: l) = setEscapeCount l :=
  List.countP_cons_of_neg _ l (by simp)

@[simp] lemma setEscapeCount_cons_glyph (ch : Char) (l : List Out) :
    setEscapeCount (Out.glyph ch :: l) = setEscapeCount l :=
  List.countP_cons_of_neg _ l (by simp)

@[simp] lemma resetEscapeCount_nil : resetEscapeCount [] = 0 := rfl

@[simp] lemma resetEscapeCount_append (l1 l2 : List Out) :
    resetEscapeCount (l1 ++ l2) = resetEscapeCount l1 + resetEscapeCount l2 :=
  List.countP_append _ l1 l2

@[simp] lemma resetEscapeCount_cons_set (c : RGB) (l : List Out) :
    resetEscapeCount (Out.setColor c :: l) = resetEscapeCount l :=
  List.countP_cons_of_neg _ l (by simp)

@[simp] lemma resetEscapeCount_cons_reset (l : List Out) :
    resetEscapeCount (Out.reset :: l) = resetEscapeCount l + 1 :=
  List.countP_cons_of_pos _ l rfl

@[simp] lemma resetEscapeCount_cons_newline (l : List Out) :
    resetEscapeCount (Out.newline :: l) = resetEscapeCount l :=
  List.countP_cons_of_neg _ l (by simp)

@[simp] lemma resetEscapeCount_cons_glyph (ch : Char) (l : List Out) :
    resetEscapeCount (Out.glyph ch :: l) = resetEscapeCount l :=
  List.countP_cons_of_neg _ l (by simp)

/-- The set-escape count of the loop's emission equals the spec's
transition count, for any starting state. -/
lemma runLoop_setEscapeCount (alpha_threshold : ℕ) (maximum : ℚ)
    (ps : List (ℕ × ℕ × Rgba)) :
    ∀ (prev : Option RGB) (curLine : ℕ),
      setEscapeCount (runLoop alpha_threshold maximum ⟨prev, curLine⟩ ps).2 =
        transitionCountAux prev curLine ps := by
  induction ps with
  | nil => intro prev curLine; simp [runLoop, transitionCountAux]
  | cons e rest ih =>
    intro prev curLine
    obtain ⟨x, line, pixel⟩ := e
    simp only [runLoop, transitionCountAux]
    by_cases hlt : curLine < line
    · cases prev with
      | none => simp [hlt, ih, Nat.add_comm]
      | some c => simp [hlt, ih, Nat.add_comm]
    · by_cases hcol : prev = some ⟨pixel.r, pixel.g, pixel.b⟩
      · simp [hlt, hcol, ih]
      · simp [hlt, hcol, ih, Nat.add_comm]

/-- After a non-empty loop the encoder always holds an open color. -/
lemma runLoop_prevColor_isSome (alpha_threshold : ℕ) (maximum : ℚ)
    (ps : List (ℕ × ℕ × Rgba)) :
    ∀ st : RState, ps ≠ [] →
      ((runLoop alpha_threshold maximum st ps).1).prevColor.isSome := by
  induction ps with
  | nil => intro st h; exact absurd rfl h
  | cons e rest ih =>
    intro st h
    obtain ⟨x, line, pixel⟩ := e
    by_cases hrest : rest = []
    · subst hrest; simp [runLoop]
    · simp only [runLoop]
      exact ih _ hrest

/-- The characters written by a render's event list are the
concatenation of its tokens' characters. -/
lemma writtenChars_map_write (l : List Out) :
    writtenChars (l.map (fun o => Event.write (outChars o)) ++ [Event.flush]) =
      l.flatMap outChars := by
  unfold writtenChars
  simp only [List.flatMap_append, List.flatMap_map, List.flatMap_cons,
    List.flatMap_nil, List.append_nil]

/-- The duplicated string-building loop agrees with the event-emitting
loop, state and output both. -/
lemma asciiLoop_eq_runLoop (alpha_threshold : ℕ) (maximum : ℚ)
    (ps : List (ℕ × ℕ × Rgba)) :
    ∀ (st : RState) (output : List Char),
      asciiLoop alpha_threshold maximum st output ps =
        ((runLoop alpha_threshold maximum st ps).1,
          output ++ (runLoop alpha_threshold maximum st ps).2.flatMap outChars) := by
  induction ps with
  | nil => intro st output; simp [asciiLoop, runLoop]
  | cons e rest ih =>
    intro st output
    obtain ⟨x, line, pixel⟩ := e
    simp only [asciiLoop, runLoop]
    rw [ih]
    by_cases hlt : st.currentLine < line
    · cases hprev : st.prevColor with
      | none => simp [hlt, hprev, outChars, List.flatMap_append]
      | some c => simp [hlt, hprev, outChars, List.flatMap_append]
    · by_cases hcol : st.prevColor = some ⟨pixel.r, pixel.g, pixel.b⟩
      · simp [hlt, hcol, outChars, List.flatMap_append]
      · simp [hlt, hcol, outChars, List.flatMap_append]

/-- The initial accumulator of the maximum fold bounds it from below. -/
lemma foldl_max_init_le (l : List Rgba) :
    ∀ init : ℚ,
      init ≤ l.foldl (fun acc q => max (get_grayscale_pixel q) acc) init := by
  induction l with
  | nil => intro init; exact le_refl init
  | cons q rest ih =>
    intro init
    exact le_trans (le_max_right (get_grayscale_pixel q) init) (ih _)

/-- Every member's intensity bounds the maximum fold from below. -/
lemma mem_le_foldl_max (l : List Rgba) (p : Rgba) :
    p ∈ l → ∀ init : ℚ,
      get_grayscale_pixel p ≤
        l.foldl (fun acc q => max (get_grayscale_pixel q) acc) init := by
  induction l with
  | nil => intro hp; exact absurd hp (List.not_mem_nil p)
  | cons q rest ih =>
    intro hp init
    rcases List.mem_cons.mp hp with hq | hrest
    · subst hq
      exact le_trans (le_max_left _ init) (foldl_max_init_le rest _)
    · simpa using ih hrest (max (get_grayscale_pixel q) init)

/-- Every pixel's intensity is at most the frame maximum. -/
lemma le_maximumIntensity (img : Image) (p : Rgba) (hp : p ∈ imagePixels img) :
    get_grayscale_pixel p ≤ maximumIntensity img :=
  mem_le_foldl_max _ p hp 0

/-- The frame maximum is non-negative (the fold starts at `0.0`). -/
lemma maximumIntensity_nonneg (img : Image) : 0 ≤ maximumIntensity img :=
  foldl_max_init_le _ 0

/-- The frame maximum of a buffer holding exactly two copies of one pixel
is that pixel's intensity. -/
lemma maximumIntensity_pair (img : Image) (p : Rgba)
    (hpix : imagePixels img = [p, p]) :
    maximumIntensity img = get_grayscale_pixel p := by
  unfold maximumIntensity
  rw [hpix]
  simp [max_eq_left (gray_nonneg p), max_self]

lemma gray_red_ne_zero : get_grayscale_pixel redPixel ≠ 0 := by
  unfold get_grayscale_pixel redPixel
  norm_num

/-- An opaque red pixel in a frame whose maximum is its own intensity
selects the last ramp character. -/
lemma red_glyph :
    get_char_for_pixel redPixel 0 (get_grayscale_pixel redPixel) = '@' := by
  unfold get_char_for_pixel rampIndex
  rw [if_neg (by decide)]
  rw [div_self gray_red_ne_zero]
  norm_num
  decide

/-- The reset-escape count of the loop's emission equals the number of
row changes with an open color, for any starting state. -/
lemma runLoop_resetEscapeCount (alpha_threshold : ℕ) (maximum : ℚ)
    (ps : List (ℕ × ℕ × Rgba)) :
    ∀ (prev : Option RGB) (curLine : ℕ),
      resetEscapeCount (runLoop alpha_threshold maximum ⟨prev, curLine⟩ ps).2 =
        openRowChangeCountAux prev curLine ps := by
  induction ps with
  | nil => intro prev curLine; simp [runLoop, openRowChangeCountAux]
  | cons e rest ih =>
    intro prev curLine
    obtain ⟨x, line, pixel⟩ := e
    simp only [runLoop, openRowChangeCountAux]
    by_cases hlt : curLine < line
    · cases prev with
      | none => simp [hlt, ih]
      | some c => simp [hlt, ih, Nat.add_comm]
    · by_cases hcol : prev = some ⟨pixel.r, pixel.g, pixel.b⟩
      · simp [hlt, hcol, ih]
      · simp [hlt, hcol, ih]

/-- Every reset the loop emits is immediately followed by a line break,
whatever well-formed continuation is appended after the loop's output. -/
lemma runLoop_resetsOnlyBeforeNewline (alpha_threshold : ℕ) (maximum : ℚ)
    (ps : List (ℕ × ℕ × Rgba)) :
    ∀ (st : RState) (tail : List Out),
      resetsOnlyBeforeNewline tail = true →
      resetsOnlyBeforeNewline ((runLoop alpha_threshold maximum st ps).2 ++ tail) =
        true := by
  induction ps with
  | nil => intro st tail h; simpa [runLoop] using h
  | cons e rest ih =>
    intro st tail h
    obtain ⟨x, line, pixel⟩ := e
    simp only [runLoop]
    by_cases hlt : st.currentLine < line
    · cases hprev : st.prevColor with
      | none =>
        simp [hlt, hprev, resetsOnlyBeforeNewline]
        exact ih _ tail h
      | some c =>
        simp [hlt, hprev, resetsOnlyBeforeNewline]
        exact ih _ tail h
    · by_cases hcol : st.prevColor = some ⟨pixel.r, pixel.g, pixel.b⟩
      · simp [hlt, hcol, resetsOnlyBeforeNewline]
        exact ih _ tail h
      · simp [hlt, hcol, resetsOnlyBeforeNewline]
        exact ih _ tail h

/-- Tokens of the spec's 2×1 identical-red scenario at threshold 0. -/
lemma red2x1_tokens :
    renderTokens (constImage 2 1 redPixel) 0 =
      [Out.setColor ⟨255, 0, 0⟩, Out.glyph '@', Out.glyph '@',
        Out.setColor ⟨255, 0, 0⟩] := by
  have henum : enumeratePixels (constImage 2 1 redPixel) =
      [(0, 0, redPixel), (1, 0, redPixel)] := by decide
  have hmax : maximumIntensity (constImage 2 1 redPixel) =
      get_grayscale_pixel redPixel :=
    maximumIntensity_pair _ _ (by decide)
  unfold renderTokens renderPass
  rw [henum, hmax]
  simp only [runLoop, red_glyph]
  decide

/-- Tokens of the 1×2 identical-red variant at threshold 0, showing the
row-change reset. -/
lemma red1x2_tokens :
    renderTokens (constImage 1 2 redPixel) 0 =
      [Out.setColor ⟨255, 0, 0⟩, Out.glyph '@', Out.reset, Out.newline,
        Out.setColor ⟨255, 0, 0⟩, Out.glyph '@', Out.setColor ⟨255, 0, 0⟩] := by
  have henum : enumeratePixels (constImage 1 2 redPixel) =
      [(0, 0, redPixel), (0, 1, redPixel)] := by decide
  have hmax : maximumIntensity (constImage 1 2 redPixel) =
      get_grayscale_pixel redPixel :=
    maximumIntensity_pair _ _ (by decide)
  unfold renderTokens renderPass
  rw [henum, hmax]
  simp only [runLoop, red_glyph]
  decide

/-! Claim theorems. -/

/-- C3: for every pixel, the intensity is exactly
`0.2989*R + 0.5870*G + (0.1140*B)/255.0` — the `/255.0` normalization is
applied only to the blue term, as in the reference design. -/
theorem c3_grayscale_formula (p : Rgba) :
    get_grayscale_pixel p =
      0.2989 * (p.r : ℚ) + 0.5870 * (p.g : ℚ) + (0.1140 * (p.b : ℚ)) / 255 := by
  unfold get_grayscale_pixel
  ring

/-- C2: with positive source dimensions, a single missing requested
dimension is resolved by the aspect-ratio formula with the 2.0
terminal-glyph correction (`height = ceil(width*srcH/srcW/2)` resp.
`width = ceil(height*srcW/srcH/2)`), both given dimensions pass through
unchanged, and the spec's scenario `width=None, height=100, source
200×100` resolves the width to 100. -/
theorem c2_calculate_dimensions (w h sw sh : ℕ) (_hsw : 0 < sw) (_hsh : 0 < sh) :
    calculate_dimensions (some w) none sw sh =
        Except.ok (w, (⌈(w : ℚ) * (sh : ℚ) / (sw : ℚ) / 2⌉).toNat)
      ∧ calculate_dimensions none (some h) sw sh =
        Except.ok ((⌈(h : ℚ) * (sw : ℚ) / (sh : ℚ) / 2⌉).toNat, h)
      ∧ calculate_dimensions (some w) (some h) sw sh = Except.ok (w, h)
      ∧ calculate_dimensions none (some 100) 200 100 = Except.ok (100, 100) := by
  have hceil : (⌈(100 : ℚ) * (200 : ℚ) / (100 : ℚ) / 2⌉ : ℤ) = 100 := by norm_num
  refine ⟨rfl, rfl, rfl, ?_⟩
  show Except.ok ((⌈(100 : ℚ) * (200 : ℚ) / (100 : ℚ) / 2⌉).toNat, 100) =
    Except.ok ((100 : ℕ), (100 : ℕ))
  rw [hceil]
  rfl

theorem c2_witness :
    (0 : ℕ) < 200 ∧
      (calculate_dimensions (some 3) none 200 100 =
          Except.ok (3, (⌈(3 : ℚ) * (100 : ℚ) / (200 : ℚ) / 2⌉).toNat)
        ∧ calculate_dimensions none (some 100) 200 100 =
          Except.ok ((⌈(100 : ℚ) * (200 : ℚ) / (100 : ℚ) / 2⌉).toNat, 100)
        ∧ calculate_dimensions (some 3) (some 100) 200 100 = Except.ok (3, 100)
        ∧ calculate_dimensions none (some 100) 200 100 = Except.ok (100, 100)) :=
  ⟨by decide, c2_calculate_dimensions 3 100 200 100 (by decide) (by decide)⟩

/-- C9 counterexample: with both requested dimensions absent the resolver
fails by panicking through `Option::expect` (message "Either width or
weight must be specified"), which is not an `InvalidDimensions` error
value returned to the caller. -/
theorem c9_counterexample :
    calculate_dimensions none none 7 5 ≠ Except.error Failure.invalidDimensions
      ∧ calculate_dimensions none none 7 5 =
        Except.error (Failure.panicked "Either width or weight must be specified") :=
  ⟨by simp [calculate_dimensions], rfl⟩

/-- C9 amended: when both `requested_width` and `requested_height` are
absent, `calculate_dimensions` panics via `expect` (a fatal precondition
failure that unwinds, with message "Either width or weight must be
specified") rather than returning an `InvalidDimensions` error value to
the caller, and it never produces dimensions. -/
theorem c9_both_absent_panics (sw sh : ℕ) :
    calculate_dimensions none none sw sh =
      Except.error (Failure.panicked "Either width or weight must be specified") := rfl

/-- C6: a pixel whose alpha channel is at or below the threshold renders
as the space character, regardless of its RGB values and of the frame
maximum. -/
theorem c6_transparent_is_space (pixel : Rgba) (alpha_threshold : ℕ) (maximum : ℚ)
    (h : pixel.a ≤ alpha_threshold) :
    get_char_for_pixel pixel alpha_threshold maximum = ' ' := by
  unfold get_char_for_pixel
  exact if_pos h

theorem c6_witness :
    (3 : ℕ) ≤ 7 ∧ get_char_for_pixel ⟨200, 100, 50, 3⟩ 7 76 = ' ' :=
  ⟨by decide, c6_transparent_is_space ⟨200, 100, 50, 3⟩ 7 76 (by decide)⟩

/-- C7: glyph selection is safe for every pixel of every frame: the ramp
index is always in bounds; a zero frame maximum yields a zero normalized
intensity (never a failure) and selects the first ramp character; and a
pixel whose non-zero intensity equals the frame maximum gets normalized
intensity exactly 1 and selects the last ramp character. -/
theorem c7_glyph_selection_safe (img : Image) (p : Rgba) (alpha_threshold : ℕ)
    (hp : p ∈ imagePixels img) :
    rampIndex p (maximumIntensity img) < DEFAULT.length
      ∧ (maximumIntensity img = 0 →
          get_grayscale_pixel p / maximumIntensity img = 0
            ∧ (alpha_threshold < p.a →
                get_char_for_pixel p alpha_threshold (maximumIntensity img) =
                  DEFAULT.getD 0 ' '))
      ∧ (maximumIntensity img = get_grayscale_pixel p → get_grayscale_pixel p ≠ 0 →
          get_grayscale_pixel p / maximumIntensity img = 1
            ∧ (alpha_threshold < p.a →
                get_char_for_pixel p alpha_threshold (maximumIntensity img) =
                  DEFAULT.getD (DEFAULT.length - 1) ' ')) := by
  have hle := le_maximumIntensity img p hp
  have h0 := maximumIntensity_nonneg img
  have hcast : ((DEFAULT.length - 1 : ℕ) : ℚ) = 9 := by norm_num [DEFAULT]
  refine ⟨?_, ?_, ?_⟩
  · unfold rampIndex
    rw [hcast]
    by_cases hm : maximumIntensity img = 0
    · rw [hm, div_zero, zero_mul]
      simp [DEFAULT]
    · have hmpos : 0 < maximumIntensity img := lt_of_le_of_ne h0 (Ne.symm hm)
      have hg1 : get_grayscale_pixel p / maximumIntensity img ≤ 1 :=
        (div_le_one hmpos).mpr hle
      have hmul : get_grayscale_pixel p / maximumIntensity img * (9 : ℚ) ≤ 9 :=
        mul_le_of_le_one_left (by norm_num) hg1
      have hfl : ⌊get_grayscale_pixel p / maximumIntensity img * (9 : ℚ)⌋ ≤ 9 :=
        le_trans (Int.floor_le_floor hmul) (by norm_num)
      have htn : (⌊get_grayscale_pixel p / maximumIntensity img * (9 : ℚ)⌋).toNat ≤ 9 :=
        le_trans (Int.toNat_le_toNat hfl) (by decide)
      exact lt_of_le_of_lt htn (by decide)
  · intro hm
    have hdiv : get_grayscale_pixel p / maximumIntensity img = 0 := by
      rw [hm, div_zero]
    refine ⟨hdiv, fun ha => ?_⟩
    unfold get_char_for_pixel
    rw [if_neg (by omega)]
    unfold rampIndex
    rw [hm, div_zero, zero_mul]
    simp
  · intro hm hg
    have hdiv : get_grayscale_pixel p / maximumIntensity img = 1 := by
      rw [hm]
      exact div_self hg
    refine ⟨hdiv, fun ha => ?_⟩
    unfold get_char_for_pixel
    rw [if_neg (by omega)]
    unfold rampIndex
    rw [hdiv, one_mul]
    simp

theorem c7_witness :
    redPixel ∈ imagePixels (constImage 2 1 redPixel) ∧
      (rampIndex redPixel (maximumIntensity (constImage 2 1 redPixel)) < DEFAULT.length
        ∧ (maximumIntensity (constImage 2 1 redPixel) = 0 →
            get_grayscale_pixel redPixel / maximumIntensity (constImage 2 1 redPixel) = 0
              ∧ (0 < redPixel.a →
                  get_char_for_pixel redPixel 0 (maximumIntensity (constImage 2 1 redPixel)) =
                    DEFAULT.getD 0 ' '))
        ∧ (maximumIntensity (constImage 2 1 redPixel) = get_grayscale_pixel redPixel →
            get_grayscale_pixel redPixel ≠ 0 →
            get_grayscale_pixel redPixel / maximumIntensity (constImage 2 1 redPixel) = 1
              ∧ (0 < redPixel.a →
                  get_char_for_pixel redPixel 0 (maximumIntensity (constImage 2 1 redPixel)) =
                    DEFAULT.getD (DEFAULT.length - 1) ' '))) :=
  ⟨by decide, c7_glyph_selection_safe (constImage 2 1 redPixel) redPixel 0 (by decide)⟩

/-- C1 counterexample: for a 2×1 buffer of two identical transparent
pixels at threshold 0, `render_to_text` emits two color-set escapes — the
trailing end-of-stream set escape included — while the spec's transition
count is 1; the emitted number moreover equals `W*H = 2` although both
cells share a color. -/
theorem c1_counterexample :
    setEscapeCount (renderTokens (constImage 2 1 clearPixel) 0) = 2
      ∧ transitionCount (constImage 2 1 clearPixel) = 1
      ∧ (constImage 2 1 clearPixel).width * (constImage 2 1 clearPixel).height = 2 := by
  refine ⟨by decide, by decide, by decide⟩

/-- C1 amended: the color-set escapes emitted by `render_to_text` number
exactly the spec's transition count (positions whose color differs from
the previous one, row boundaries clearing the previous color) plus one
for the trailing end-of-stream color-set escape whenever the buffer is
non-empty; the loop itself emits exactly the transition count. -/
theorem c1_set_escape_count (img : Image) (alpha_threshold : ℕ) :
    setEscapeCount (renderPass img alpha_threshold).2 = transitionCount img
      ∧ setEscapeCount (renderTokens img alpha_threshold) =
        transitionCount img + (if enumeratePixels img = [] then 0 else 1) := by
  have hloop : setEscapeCount (renderPass img alpha_threshold).2 = transitionCount img :=
    runLoop_setEscapeCount alpha_threshold (maximumIntensity img)
      (enumeratePixels img) none 0
  refine ⟨hloop, ?_⟩
  unfold renderTokens
  rw [setEscapeCount_append, hloop]
  by_cases henum : enumeratePixels img = []
  · rw [if_pos henum]
    unfold renderPass
    rw [henum]
    simp [runLoop]
  · rw [if_neg henum]
    have hs := runLoop_prevColor_isSome alpha_threshold (maximumIntensity img)
      (enumeratePixels img) ⟨none, 0⟩ henum
    obtain ⟨c, hc⟩ := Option.isSome_iff_exists.mp hs
    unfold renderPass
    rw [hc]
    simp

/-- C4: whenever a color is still open after the last pixel,
`render_to_text` ends by writing a color-set escape (not a reset — its
characters differ from the reset escape) and then flushing the sink. -/
theorem c4_trailing_set_then_flush (img : Image) (alpha_threshold : ℕ) (c : RGB)
    (h : (renderPass img alpha_threshold).1.prevColor = some c) :
    render_to_text img alpha_threshold =
        ((renderPass img alpha_threshold).2 ++ [Out.setColor c]).map
          (fun o => Event.write (outChars o)) ++ [Event.flush]
      ∧ outChars (Out.setColor c) ≠ ansiReset := by
  constructor
  · unfold render_to_text renderTokens
    rw [h]
  · intro hEq
    have h3 : (outChars (Out.setColor c)).get? 2 = some '3' := rfl
    rw [hEq] at h3
    exact absurd h3 (by decide)

theorem c4_witness :
    (renderPass (constImage 1 1 clearPixel) 0).1.prevColor = some ⟨0, 0, 0⟩
      ∧ (render_to_text (constImage 1 1 clearPixel) 0 =
            ((renderPass (constImage 1 1 clearPixel) 0).2 ++ [Out.setColor ⟨0, 0, 0⟩]).map
              (fun o => Event.write (outChars o)) ++ [Event.flush]
          ∧ outChars (Out.setColor ⟨0, 0, 0⟩) ≠ ansiReset) :=
  ⟨by decide, c4_trailing_set_then_flush (constImage 1 1 clearPixel) 0 ⟨0, 0, 0⟩ (by decide)⟩

/-- C5 counterexample: for the spec's 2×1 scenario (two identical opaque
red pixels, threshold 0) the render emits no reset escape at all — the
end of stream gets a color-set escape instead — and two color-set escapes
rather than the claimed single one. -/
theorem c5_counterexample :
    resetEscapeCount (renderTokens (constImage 2 1 redPixel) 0) = 0
      ∧ setEscapeCount (renderTokens (constImage 2 1 redPixel) 0) = 2 := by
  refine ⟨by decide, by decide⟩

/-- C5 amended: during every render pass a reset escape is emitted
exactly at the row changes at which a color is open — the reset count
equals the number of row changes where `previous_color` is `Some`, and
every reset immediately precedes a line break — while at end of stream
no reset is ever emitted: the stream's last token is a color-set escape
precisely when `previous_color` is `Some` (and the stream is empty
otherwise). For the spec's 2×1 identical-red scenario at threshold 0
this gives one color-set escape, two identical glyphs (the ramp's last
character) and a trailing color-set escape with no reset; the 1×2
variant shows the row-change reset. -/
theorem c5_reset_placement (img : Image) (alpha_threshold : ℕ) :
    resetEscapeCount (renderTokens img alpha_threshold) = openRowChangeCount img
      ∧ resetsOnlyBeforeNewline (renderTokens img alpha_threshold) = true
      ∧ (renderTokens img alpha_threshold).getLast? =
        Option.map Out.setColor ((renderPass img alpha_threshold).1.prevColor)
      ∧ (renderTokens img alpha_threshold).getLast? ≠ some Out.reset
      ∧ renderTokens (constImage 2 1 redPixel) 0 =
        [Out.setColor ⟨255, 0, 0⟩, Out.glyph '@', Out.glyph '@',
          Out.setColor ⟨255, 0, 0⟩]
      ∧ renderTokens (constImage 1 2 redPixel) 0 =
        [Out.setColor ⟨255, 0, 0⟩, Out.glyph '@', Out.reset, Out.newline,
          Out.setColor ⟨255, 0, 0⟩, Out.glyph '@', Out.setColor ⟨255, 0, 0⟩] := by
  have hcount : resetEscapeCount (renderTokens img alpha_threshold) =
      openRowChangeCount img := by
    unfold renderTokens renderPass openRowChangeCount
    rw [resetEscapeCount_append,
      runLoop_resetEscapeCount alpha_threshold (maximumIntensity img)
        (enumeratePixels img) none 0]
    cases hc : ((runLoop alpha_threshold (maximumIntensity img) ⟨none, 0⟩
        (enumeratePixels img)).1).prevColor with
    | none => simp
    | some c => simp
  have hpred : resetsOnlyBeforeNewline (renderTokens img alpha_threshold) = true := by
    unfold renderTokens renderPass
    cases hc : ((runLoop alpha_threshold (maximumIntensity img) ⟨none, 0⟩
        (enumeratePixels img)).1).prevColor with
    | none =>
      exact runLoop_resetsOnlyBeforeNewline alpha_threshold (maximumIntensity img)
        (enumeratePixels img) ⟨none, 0⟩ [] rfl
    | some c =>
      exact runLoop_resetsOnlyBeforeNewline alpha_threshold (maximumIntensity img)
        (enumeratePixels img) ⟨none, 0⟩ [Out.setColor c] rfl
  have hlast : (renderTokens img alpha_threshold).getLast? =
      Option.map Out.setColor ((renderPass img alpha_threshold).1.prevColor) := by
    unfold renderTokens
    cases hc : ((renderPass img alpha_threshold).1).prevColor with
    | some c => simp
    | none =>
      by_cases henum : enumeratePixels img = []
      · unfold renderPass
        rw [henum]
        simp [runLoop]
      · have hs := runLoop_prevColor_isSome alpha_threshold (maximumIntensity img)
          (enumeratePixels img) ⟨none, 0⟩ henum
        unfold renderPass at hc
        rw [hc] at hs
        simp at hs
  refine ⟨hcount, hpred, hlast, ?_, red2x1_tokens, red1x2_tokens⟩
  rw [hlast]
  cases ((renderPass img alpha_threshold).1).prevColor <;> simp

/-- C8 counterexample: rendering a 1×1 fully transparent pixel at
threshold 0 does not produce a single space — color escapes are emitted
around it, since escape emission ignores the alpha channel. -/
theorem c8_counterexample :
    writtenChars (render_to_text (constImage 1 1 clearPixel) 0) ≠ [' '] := by
  decide

/-- C8 amended: rendering a 1×1 fully transparent pixel `(0,0,0,0)` at
threshold 0 produces a color-set escape for `(0,0,0)`, a single space
glyph, and a trailing color-set escape for `(0,0,0)`: the sole glyph is a
space, but color escapes are still emitted because escape emission does
not consult the alpha channel. -/
theorem c8_transparent_pixel_output :
    renderTokens (constImage 1 1 clearPixel) 0 =
        [Out.setColor ⟨0, 0, 0⟩, Out.glyph ' ', Out.setColor ⟨0, 0, 0⟩]
      ∧ writtenChars (render_to_text (constImage 1 1 clearPixel) 0) =
        ansiSetColor ⟨0, 0, 0⟩ ++ ' ' :: ansiSetColor ⟨0, 0, 0⟩ := by
  refine ⟨by decide, by decide⟩

/-- C10: on every resampled buffer and threshold, the characters written
through the sink by `render_to_text` coincide with the string built by
`get_ascii_as_string` — the duplicated pipelines are equivalent (both are
preceded by the identical dimension-resolution and resize steps). -/
theorem c10_pipelines_agree (img : Image) (alpha_threshold : ℕ) :
    writtenChars (render_to_text img alpha_threshold) =
      get_ascii_as_string img alpha_threshold := by
  unfold render_to_text
  rw [writtenChars_map_write]
  unfold get_ascii_as_string renderTokens renderPass
  rw [asciiLoop_eq_runLoop]
  simp only [List.nil_append, List.flatMap_append]
  cases hc : ((runLoop alpha_threshold (maximumIntensity img) ⟨none, 0⟩
      (enumeratePixels img)).1).prevColor with
  | none => simp
  | some c => simp [outChars]
